import Mathlib

/-!
Shallow embedding of the date-parsing and timestamp-generation core of the
Git-Timetraveler repository (src/src/date_parser.rs), together with theorems
settling the specification claims about it.

Modelling conventions:
* Rust `u32` values are modelled as `Nat` (all arithmetic in the embedded code
  stays far below 2^32, so no wrap-around can occur and `Nat` is faithful).
* `chrono::NaiveDate` is modelled by the `Date` structure; validity of a
  year/month/day triple (`NaiveDate::from_ymd_opt`) is day-in-month validity
  for the proleptic Gregorian calendar, which is what chrono implements for
  the years handled here (1970-2030).
* `chrono::DateTime<Utc>` values produced by the code always have
  minute = second = 0, so they are modelled by `Timestamp` (a `Date` plus an
  hour); chronological comparison is modelled by the injective key `tsKey`.
* The regular expressions of `DateParser::new` are modelled by executable
  shape matchers over `List Char` with the same matching semantics on the
  ASCII inputs the grammar accepts (`\d` as ASCII digits, `\s` as ASCII
  whitespace, `[A-Za-z]` as ASCII letters).
* `anyhow` error values are modelled by the `ParseError` inductive, one
  constructor per distinct error construction site in the source; the
  generator's internal errors keep their message strings.
-/

/-! ## Character classes (ASCII models of the regex classes) -/

/-- Model of the regex class `\d` (ASCII digits). -/
def isDigitC (c : Char) : Bool := 48 ≤ c.toNat && c.toNat ≤ 57

/-- Model of the regex class `[A-Za-z]`. -/
def isAlphaC (c : Char) : Bool :=
  (65 ≤ c.toNat && c.toNat ≤ 90) || (97 ≤ c.toNat && c.toNat ≤ 122)

/-- Model of the regex class `\s` and of the characters removed by
`str::trim` (ASCII whitespace). -/
def isWsC (c : Char) : Bool :=
  c.toNat = 32 || c.toNat = 9 || c.toNat = 13 || c.toNat = 10

/-- Model of `str::trim`: drop whitespace from both ends. -/
def wsTrim (cs : List Char) : List Char :=
  ((cs.dropWhile isWsC).reverse.dropWhile isWsC).reverse

/-- Numeric value of a digit string, as computed by `str::parse::<u32>` on a
string of ASCII digits. -/
def digitsToNat (cs : List Char) : Nat :=
  cs.foldl (fun acc c => acc * 10 + (c.toNat - 48)) 0

/-- Model of `str::split(',')` on a character list. -/
def splitOnComma : List Char → List (List Char)
  | [] => [[]]
  | c :: rest =>
    let ps := splitOnComma rest
    if c = ',' then [] :: ps
    else (c :: ps.headD []) :: ps.tail

/-! ## Calendar utilities (`is_leap_year`, `days_in_month`, chrono model) -/

/-- Source `is_leap_year`. -/
def is_leap_year (year : Nat) : Bool :=
  (year % 4 == 0 && year % 100 != 0) || (year % 400 == 0)

/-- Length of month `m` of year `y` in the proleptic Gregorian calendar
(0 for an invalid month number). Used to model chrono's calendar. -/
def monthLen (y m : Nat) : Nat :=
  match m with
  | 1 | 3 | 5 | 7 | 8 | 10 | 12 => 31
  | 4 | 6 | 9 | 11 => 30
  | 2 => if is_leap_year y then 29 else 28
  | _ => 0

/-- Source `days_in_month` (returns `Result<u32>`). -/
def days_in_month (year month : Nat) : Except String Nat :=
  match month with
  | 1 | 3 | 5 | 7 | 8 | 10 | 12 => .ok 31
  | 4 | 6 | 9 | 11 => .ok 30
  | 2 => .ok (if is_leap_year year then 29 else 28)
  | _ => .error "Invalid month"

/-- Model of `chrono::NaiveDate` for the year range handled here. -/
structure Date where
  year : Nat
  month : Nat
  day : Nat
deriving DecidableEq, Repr

/-- A `Date` is a real calendar date. -/
def dateOk (d : Date) : Prop :=
  1 ≤ d.month ∧ d.month ≤ 12 ∧ 1 ≤ d.day ∧ d.day ≤ monthLen d.year d.month

instance (d : Date) : Decidable (dateOk d) := by
  unfold dateOk; infer_instance

/-- Model of `NaiveDate::from_ymd_opt`. -/
def from_ymd_opt (y m d : Nat) : Option Date :=
  if 1 ≤ m ∧ m ≤ 12 ∧ 1 ≤ d ∧ d ≤ monthLen y m then some ⟨y, m, d⟩ else none

/-- Successor day in the calendar (used to model adding a `chrono::Duration`
of days to a `NaiveDate`). -/
def nextDay (d : Date) : Date :=
  if d.day < monthLen d.year d.month then ⟨d.year, d.month, d.day + 1⟩
  else if d.month < 12 then ⟨d.year, d.month + 1, 1⟩
  else ⟨d.year + 1, 1, 1⟩

/-- Model of `date + chrono::Duration::days(k)` for a non-negative `k`:
step to the next calendar day `k` times. -/
def addDays (d : Date) : Nat → Date
  | 0 => d
  | k + 1 => addDays (nextDay d) k

/-- Days of year `y` strictly before month `m`. -/
def daysBeforeMonth (y m : Nat) : Nat :=
  ((List.range (m - 1)).map (fun k => monthLen y (k + 1))).sum

/-- Ordinal day of the year of a date (1-based). -/
def dayOfYear (d : Date) : Nat := daysBeforeMonth d.year d.month + d.day

/-- Injective chronological key for valid dates: later calendar dates have
strictly larger keys (the day-of-year of a valid date is at most 366 < 1000). -/
def dateKey (d : Date) : Nat := d.year * 1000 + dayOfYear d

/-! ## Timestamps and sorting -/

/-- Model of the `DateTime<Utc>` values built by the generator (their minute
and second are always 0). -/
structure Timestamp where
  date : Date
  hour : Nat
deriving DecidableEq, Repr

/-- Chronological key of a timestamp (hours are always < 24 here). -/
def tsKey (t : Timestamp) : Nat := dateKey t.date * 24 + t.hour

/-- Insert a timestamp into a chronologically sorted list (helper of
`sortTs`). -/
def insertTs (t : Timestamp) : List Timestamp → List Timestamp
  | [] => [t]
  | x :: xs => if tsKey t ≤ tsKey x then t :: x :: xs else x :: insertTs t xs

/-- Model of `Vec::<DateTime<Utc>>::sort()`: sort chronologically.
Insertion sort; agreement with the source's stable sort is observational
because `tsKey` is injective on the valid timestamps generated here. -/
def sortTs : List Timestamp → List Timestamp
  | [] => []
  | x :: xs => insertTs x (sortTs xs)

/-! ## Parser data model and errors -/

/-- Source enum `DateInput`. -/
inductive DateInput where
  | year (y : Nat)
  | yearMonth (y m : Nat)
  | fullDate (d : Date)
  | range (start_ end_ : Nat)
  | list (years : List Nat)
deriving DecidableEq, Repr

/-- Source struct `TimestampConfig`. -/
structure TimestampConfig where
  default_hour : Nat
  distribute_times : Bool
  chronological_order : Bool
deriving DecidableEq, Repr

/-- Source `TimestampConfig::default()`. -/
def defaultConfig : TimestampConfig :=
  { default_hour := 18, distribute_times := true, chronological_order := true }

/-- Parse errors; one constructor per distinct `anyhow!` construction site of
the parsing code, named after the specification's error taxonomy. -/
inductive ParseError where
  | emptyInput
  | unrecognizedFormat
  | yearOutOfRange (y : Nat)
  | monthOutOfRange (m : Nat)
  | dayOutOfRange (d : Nat)
  | invalidCalendarDate (y m d : Nat)
  | startAfterEnd (start_ end_ : Nat)
  | tooLarge (start_ end_ : Nat)
  | duplicateInList (y : Nat)
  | emptyList
  | invalidListMember
  | unknownMonthName
deriving DecidableEq, Repr

instance {e a : Type} [DecidableEq e] [DecidableEq a] : DecidableEq (Except e a) :=
  fun x y =>
    match x, y with
    | .error u, .error v =>
      decidable_of_iff (u = v) ⟨fun h => by rw [h], fun h => by injection h⟩
    | .ok u, .ok v =>
      decidable_of_iff (u = v) ⟨fun h => by rw [h], fun h => by injection h⟩
    | .error _, .ok _ => .isFalse (fun h => Except.noConfusion h)
    | .ok _, .error _ => .isFalse (fun h => Except.noConfusion h)

/-! ## Shape matchers (models of the compiled regexes of `DateParser::new`) -/

/-- Read exactly four digits from the front: the `(\d{4})` group followed by
a non-digit (or the end). Returns the value and the rest. -/
def read4Digits (cs : List Char) : Option (Nat × List Char) :=
  if (cs.takeWhile isDigitC).length = 4 then
    some (digitsToNat (cs.takeWhile isDigitC), cs.dropWhile isDigitC)
  else none

/-- Read one or two digits from the front: the `(\d{1,2})` group followed by
a non-digit (or the end). -/
def read12Digits (cs : List Char) : Option (Nat × List Char) :=
  if 1 ≤ (cs.takeWhile isDigitC).length ∧ (cs.takeWhile isDigitC).length ≤ 2 then
    some (digitsToNat (cs.takeWhile isDigitC), cs.dropWhile isDigitC)
  else none

/-- Model of `year_regex` = `^\s*(\d{4})\s*$`. The parser only ever applies
this regex to already-trimmed strings (`parse` trims its input and
`parse_list` trims each part), and on a trimmed string the `\s*` wrappers
match nothing, so the regex matches exactly the four-digit strings. -/
def yearShape (cs : List Char) : Option Nat :=
  if cs.length = 4 ∧ cs.all isDigitC then some (digitsToNat cs) else none

/-- Model of `range_regex` = `^\s*(\d{4})\s*-\s*(\d{4})\s*$`. -/
def rangeShape (cs : List Char) : Option (Nat × Nat) :=
  match read4Digits (cs.dropWhile isWsC) with
  | none => none
  | some (a, r1) =>
    match r1.dropWhile isWsC with
    | '-' :: rest =>
      match read4Digits (rest.dropWhile isWsC) with
      | none => none
      | some (b, r2) => if r2.all isWsC then some (a, b) else none
    | _ => none

/-- Model of `full_date_regex` = `^\s*(\d{4})-(\d{1,2})-(\d{1,2})\s*$`. -/
def fullDateShape (cs : List Char) : Option (Nat × Nat × Nat) :=
  match read4Digits (cs.dropWhile isWsC) with
  | none => none
  | some (y, r1) =>
    match r1 with
    | '-' :: rest =>
      match read12Digits rest with
      | none => none
      | some (m, r2) =>
        match r2 with
        | '-' :: rest2 =>
          match read12Digits rest2 with
          | none => none
          | some (d, r3) => if r3.all isWsC then some (y, m, d) else none
        | _ => none
    | _ => none

/-- Result of the two-alternative `year_month_regex`. -/
inductive YMMatch where
  | numeric (y m : Nat)
  | named (name : List Char) (y : Nat)
deriving DecidableEq, Repr

/-- Model of `year_month_regex` =
`^\s*(\d{4})-(\d{1,2})\s*$|^\s*([A-Za-z]{3,9})\s+(\d{4})\s*$`
(the numeric alternative is tried first, as in the regex). -/
def yearMonthShape (cs : List Char) : Option YMMatch :=
  match read4Digits (cs.dropWhile isWsC) with
  | some (y, r1) =>
    match r1 with
    | '-' :: rest =>
      match read12Digits rest with
      | none => none
      | some (m, r2) => if r2.all isWsC then some (.numeric y m) else none
    | _ => none
  | none =>
    if 3 ≤ ((cs.dropWhile isWsC).takeWhile isAlphaC).length ∧
        ((cs.dropWhile isWsC).takeWhile isAlphaC).length ≤ 9 then
      if ((((cs.dropWhile isWsC).dropWhile isAlphaC)).takeWhile isWsC).length = 0 then
        none
      else
        match read4Digits (((cs.dropWhile isWsC).dropWhile isAlphaC).dropWhile isWsC) with
        | none => none
        | some (y, r2) =>
          if r2.all isWsC then
            some (.named ((cs.dropWhile isWsC).takeWhile isAlphaC) y)
          else none
    else none

/-! ## Validators (`DateParser::validate_*`, `create_naive_date`,
`parse_month_name`) -/

/-- Source `validate_year`. -/
def validate_year (year : Nat) : Except ParseError Unit :=
  if year < 1970 ∨ 2030 < year then .error (.yearOutOfRange year) else .ok ()

/-- Source `validate_month`. -/
def validate_month (month : Nat) : Except ParseError Unit :=
  if month < 1 ∨ 12 < month then .error (.monthOutOfRange month) else .ok ()

/-- Source `validate_day`. -/
def validate_day (day : Nat) : Except ParseError Unit :=
  if day < 1 ∨ 31 < day then .error (.dayOutOfRange day) else .ok ()

/-- Source `validate_year_range`. -/
def validate_year_range (start_year end_year : Nat) : Except ParseError Unit :=
  match validate_year start_year with
  | .error e => .error e
  | .ok _ =>
    match validate_year end_year with
    | .error e => .error e
    | .ok _ =>
      if end_year < start_year then .error (.startAfterEnd start_year end_year)
      else if 50 < end_year - start_year + 1 then
        .error (.tooLarge start_year end_year)
      else .ok ()

/-- Source `create_naive_date`. -/
def create_naive_date (year month day : Nat) : Except ParseError Date :=
  match validate_year year with
  | .error e => .error e
  | .ok _ =>
    match validate_month month with
    | .error e => .error e
    | .ok _ =>
      match validate_day day with
      | .error e => .error e
      | .ok _ =>
        match from_ymd_opt year month day with
        | some d => .ok d
        | none => .error (.invalidCalendarDate year month day)

/-- The `month_names` table of `DateParser::new`, in source order. -/
def month_names : List (List Char × Nat) :=
  [("january".toList, 1), ("jan".toList, 1),
   ("february".toList, 2), ("feb".toList, 2),
   ("march".toList, 3), ("mar".toList, 3),
   ("april".toList, 4), ("apr".toList, 4),
   ("may".toList, 5),
   ("june".toList, 6), ("jun".toList, 6),
   ("july".toList, 7), ("jul".toList, 7),
   ("august".toList, 8), ("aug".toList, 8),
   ("september".toList, 9), ("sep".toList, 9), ("sept".toList, 9),
   ("october".toList, 10), ("oct".toList, 10),
   ("november".toList, 11), ("nov".toList, 11),
   ("december".toList, 12), ("dec".toList, 12)]

/-- First table entry equal to the given (already lowercased) name. -/
def monthLookup (lowered : List Char) : Option Nat :=
  (month_names.find? (fun p => p.1 = lowered)).map (fun p => p.2)

/-- Source `parse_month_name`: lowercase, then scan the fixed table. -/
def parse_month_name (name : List Char) : Except ParseError Nat :=
  match monthLookup (name.map Char.toLower) with
  | some n => .ok n
  | none => .error .unknownMonthName

/-! ## The parser (`DateParser::parse`, `parse_list`) -/

/-- The loop body state of `parse_list`: `seen` models the `HashSet`
(membership only), `years` the output `Vec`. -/
def parse_list_go (seen years : List Nat) :
    List (List Char) → Except ParseError (List Nat)
  | [] => if years = [] then .error .emptyList else .ok years
  | p :: rest =>
    if wsTrim p = [] then parse_list_go seen years rest
    else
      match yearShape (wsTrim p) with
      | none => .error .invalidListMember
      | some y =>
        if y < 1970 ∨ 2030 < y then .error (.yearOutOfRange y)
        else if y ∈ seen then .error (.duplicateInList y)
        else parse_list_go (y :: seen) (years ++ [y]) rest

/-- Source `parse_list` (input is the already-trimmed string). -/
def parse_list (cs : List Char) : Except ParseError DateInput :=
  match parse_list_go [] [] (splitOnComma cs) with
  | .error e => .error e
  | .ok years => .ok (.list years)

/-- Source `DateParser::parse`: trim, then try list, range, full date,
year-month, single year, in this order. -/
def parse (input : String) : Except ParseError DateInput :=
  let cs := wsTrim input.toList
  if cs = [] then .error .emptyInput
  else if ',' ∈ cs then parse_list cs
  else
    match rangeShape cs with
    | some (a, b) =>
      (match validate_year_range a b with
       | .error e => .error e
       | .ok _ => .ok (.range a b))
    | none =>
      match fullDateShape cs with
      | some (y, m, d) =>
        (match create_naive_date y m d with
         | .error e => .error e
         | .ok date => .ok (.fullDate date))
      | none =>
        match yearMonthShape cs with
        | some (.numeric y m) =>
          (match validate_year y with
           | .error e => .error e
           | .ok _ =>
             match validate_month m with
             | .error e => .error e
             | .ok _ => .ok (.yearMonth y m))
        | some (.named name y) =>
          (match parse_month_name name with
           | .error e => .error e
           | .ok m =>
             match validate_year y with
             | .error e => .error e
             | .ok _ => .ok (.yearMonth y m))
        | none =>
          match yearShape cs with
          | some y =>
            (match validate_year y with
             | .error e => .error e
             | .ok _ => .ok (.year y))
          | none => .error .unrecognizedFormat

/-! ## The generator (`generate_timestamps` and helpers) -/

/-- Source `create_timestamp`: clamp the hour to 23, then build the
timestamp (`and_hms_opt` requires hour < 24). -/
def create_timestamp (date : Date) (hour : Nat) : Except String Timestamp :=
  let h := min hour 23
  if h < 24 then .ok ⟨date, h⟩ else .error "Invalid time"

/-- Sequence a per-index computation over loop indices, collecting results in
order and aborting on the first error (models a `for` loop pushing into a
`Vec` with `?`). -/
def loopCollect (step : Nat → Except String Timestamp) :
    List Nat → Except String (List Timestamp)
  | [] => .ok []
  | i :: rest =>
    match step i with
    | .error e => .error e
    | .ok t =>
      match loopCollect step rest with
      | .error e => .error e
      | .ok ts => .ok (t :: ts)

/-- Sequence a per-year generator over a list of years, concatenating the
blocks in order and aborting on the first error. -/
def loopFlat (f : Nat → Except String (List Timestamp)) :
    List Nat → Except String (List Timestamp)
  | [] => .ok []
  | y :: rest =>
    match f y with
    | .error e => .error e
    | .ok ts =>
      match loopFlat f rest with
      | .error e => .error e
      | .ok more => .ok (ts ++ more)

/-- Source `generate_year_timestamps`. -/
def generate_year_timestamps (year : Nat) (config : TimestampConfig) :
    Except String (List Timestamp) :=
  let commit_count := 4
  let days_in_year := if is_leap_year year then 366 else 365
  let step (i : Nat) : Except String Timestamp :=
    let day_offset := days_in_year / (commit_count + 1) * (i + 1)
    match from_ymd_opt year 1 1 with
    | none => .error "Invalid year"
    | some start_of_year =>
      let target_date := addDays start_of_year (min day_offset (days_in_year - 1))
      let hour := if config.distribute_times then 9 + i * 3 % 13
                  else config.default_hour
      create_timestamp target_date hour
  match loopCollect step (List.range commit_count) with
  | .error e => .error e
  | .ok ts => .ok (if config.chronological_order then sortTs ts else ts)

/-- Source `generate_month_timestamps`. -/
def generate_month_timestamps (year month : Nat) (config : TimestampConfig) :
    Except String (List Timestamp) :=
  let commit_count := 2
  match days_in_month year month with
  | .error e => .error e
  | .ok dim =>
    let step (i : Nat) : Except String Timestamp :=
      let day := max (dim / (commit_count + 1) * (i + 1)) 1
      match from_ymd_opt year month day with
      | none => .error "Invalid date"
      | some target_date =>
        let hour := if config.distribute_times then config.default_hour + i * 2 % 8
                    else config.default_hour
        create_timestamp target_date hour
    match loopCollect step (List.range commit_count) with
    | .error e => .error e
    | .ok ts => .ok (if config.chronological_order then sortTs ts else ts)

/-- Source `generate_single_timestamp`. -/
def generate_single_timestamp (date : Date) (config : TimestampConfig) :
    Except String (List Timestamp) :=
  match create_timestamp date config.default_hour with
  | .error e => .error e
  | .ok t => .ok [t]

/-- Source `generate_range_timestamps` (`start..=end` iterates the years in
ascending order; it is empty when `start > end`). -/
def generate_range_timestamps (start_year end_year : Nat)
    (config : TimestampConfig) : Except String (List Timestamp) :=
  match loopFlat (fun y => generate_year_timestamps y config)
      (List.range' start_year (end_year + 1 - start_year)) with
  | .error e => .error e
  | .ok ts => .ok (if config.chronological_order then sortTs ts else ts)

/-- Source `generate_list_timestamps`. -/
def generate_list_timestamps (years : List Nat) (config : TimestampConfig) :
    Except String (List Timestamp) :=
  match loopFlat (fun y => generate_year_timestamps y config) years with
  | .error e => .error e
  | .ok ts => .ok (if config.chronological_order then sortTs ts else ts)

/-- Source `generate_timestamps`. -/
def generate_timestamps (date_input : DateInput) (config : TimestampConfig) :
    Except String (List Timestamp) :=
  match date_input with
  | .year y => generate_year_timestamps y config
  | .yearMonth y m => generate_month_timestamps y m config
  | .fullDate d => generate_single_timestamp d config
  | .range s e => generate_range_timestamps s e config
  | .list ys => generate_list_timestamps ys config

/-! ## Helper lemmas: calendar arithmetic -/

/-- The hour actually stored for a requested hour `h` is `min h 23`. -/
theorem create_timestamp_eq (d : Date) (h : Nat) :
    create_timestamp d h = .ok ⟨d, min h 23⟩ := by
  unfold create_timestamp
  rw [if_pos (by omega)]

/-- January 1st of any year is a valid chrono date. -/
theorem from_ymd_opt_jan1 (y : Nat) : from_ymd_opt y 1 1 = some ⟨y, 1, 1⟩ := rfl

theorem dateOk_mk (y m d : Nat) :
    dateOk ⟨y, m, d⟩ ↔ 1 ≤ m ∧ m ≤ 12 ∧ 1 ≤ d ∧ d ≤ monthLen y m := Iff.rfl

theorem dayOfYear_mk (y m d : Nat) :
    dayOfYear ⟨y, m, d⟩ = daysBeforeMonth y m + d := rfl

set_option linter.unnecessarySeqFocus false in
theorem monthLen_pos (y m : Nat) (h1 : 1 ≤ m) (h2 : m ≤ 12) :
    28 ≤ monthLen y m := by
  interval_cases m <;> simp [monthLen] <;> split <;> omega

theorem daysBeforeMonth_succ (y m : Nat) (hm : 1 ≤ m) :
    daysBeforeMonth y (m + 1) = daysBeforeMonth y m + monthLen y m := by
  obtain ⟨k, rfl⟩ : ∃ k, m = k + 1 := ⟨m - 1, by omega⟩
  simp [daysBeforeMonth, List.range_succ]

theorem daysBeforeMonth_12 (y : Nat) : 334 ≤ daysBeforeMonth y 12 := by
  cases hL : is_leap_year y <;>
    simp [daysBeforeMonth, monthLen, hL, List.range_succ]

/-- Stepping to the next day inside a year: below ordinal day 365 the year is
kept, the ordinal day advances by one, and validity is preserved. -/
theorem nextDay_spec (d : Date) (hd : dateOk d) (hlt : dayOfYear d ≤ 364) :
    (nextDay d).year = d.year ∧ dayOfYear (nextDay d) = dayOfYear d + 1 ∧
      dateOk (nextDay d) := by
  obtain ⟨hm1, hm2, hd1, hd2⟩ := hd
  have hdy : dayOfYear d = daysBeforeMonth d.year d.month + d.day := rfl
  by_cases h1 : d.day < monthLen d.year d.month
  · have he : nextDay d = ⟨d.year, d.month, d.day + 1⟩ := by
      unfold nextDay; rw [if_pos h1]
    rw [he]
    simp only [dateOk_mk, dayOfYear_mk]
    refine ⟨by trivial, by omega, hm1, hm2, by omega, by omega⟩
  · have hde : d.day = monthLen d.year d.month := by omega
    by_cases h2 : d.month < 12
    · have he : nextDay d = ⟨d.year, d.month + 1, 1⟩ := by
        unfold nextDay; rw [if_neg h1, if_pos h2]
      rw [he]
      simp only [dateOk_mk, dayOfYear_mk]
      have hsucc := daysBeforeMonth_succ d.year d.month hm1
      have hpos := monthLen_pos d.year (d.month + 1) (by omega) (by omega)
      refine ⟨by trivial, by omega, by omega, by omega, le_refl 1, by omega⟩
    · exfalso
      have hm12 : d.month = 12 := by omega
      have h334 := daysBeforeMonth_12 d.year
      have h31 : monthLen d.year 12 = 31 := rfl
      rw [hm12] at hdy hde
      omega

/-- Adding `k` days inside the year: as long as the target ordinal day stays
at most 365 the year is kept and the ordinal day advances by `k`. -/
theorem addDays_spec : ∀ (k : Nat) (d : Date), dateOk d → dayOfYear d + k ≤ 365 →
    (addDays d k).year = d.year ∧ dayOfYear (addDays d k) = dayOfYear d + k ∧
      dateOk (addDays d k)
  | 0, d, hd, _ => ⟨rfl, rfl, hd⟩
  | k + 1, d, hd, hk => by
    have hstep := nextDay_spec d hd (by omega)
    have hrec := addDays_spec k (nextDay d) hstep.2.2 (by omega)
    have heq : addDays d (k + 1) = addDays (nextDay d) k := rfl
    refine ⟨by rw [heq, hrec.1, hstep.1], ?_, by rw [heq]; exact hrec.2.2⟩
    rw [heq, hrec.2.1, hstep.2.1]
    omega

attribute [irreducible] addDays

theorem jan1_ok (y : Nat) : dateOk ⟨y, 1, 1⟩ := by
  rw [dateOk_mk]
  have h31 : monthLen y 1 = 31 := rfl
  omega

/-- Summary facts about the per-year target dates `addDays ⟨y,1,1⟩ n`. -/
theorem target_facts (y n : Nat) (hn : n ≤ 364) :
    dateKey (addDays ⟨y, 1, 1⟩ n) = y * 1000 + (n + 1) ∧
    (addDays ⟨y, 1, 1⟩ n).year = y ∧ dateOk (addDays ⟨y, 1, 1⟩ n) := by
  have h1 : dayOfYear ⟨y, 1, 1⟩ = 1 := rfl
  have h := addDays_spec n ⟨y, 1, 1⟩ (jan1_ok y) (by omega)
  rw [h1] at h
  refine ⟨?_, by rw [h.1], h.2.2⟩
  unfold dateKey
  rw [h.1, h.2.1]
  show y * 1000 + (1 + n) = y * 1000 + (n + 1)
  omega

/-! ## Helper lemmas: sorting and generation -/

/-- Chronological non-decrease between adjacent timestamps. -/
def tsLe (a b : Timestamp) : Prop := tsKey a ≤ tsKey b

theorem mem_insertTs {t x : Timestamp} : ∀ {l : List Timestamp},
    x ∈ insertTs t l ↔ x = t ∨ x ∈ l
  | [] => by simp [insertTs]
  | a :: l => by
    unfold insertTs
    split
    · simp
    · simp [mem_insertTs (l := l)]
      tauto

theorem mem_sortTs {x : Timestamp} : ∀ {l : List Timestamp},
    x ∈ sortTs l ↔ x ∈ l
  | [] => Iff.rfl
  | a :: l => by
    unfold sortTs
    rw [mem_insertTs]
    simp [mem_sortTs (l := l)]

/-- Sorting a list that is already chronologically ordered is the identity. -/
theorem sortTs_eq_of_chain : ∀ {l : List Timestamp},
    List.Chain' tsLe l → sortTs l = l
  | [], _ => rfl
  | [a], _ => rfl
  | a :: b :: l, h => by
    have ht : List.Chain' tsLe (b :: l) := h.tail
    have hab : tsKey a ≤ tsKey b := h.rel_head
    unfold sortTs
    rw [sortTs_eq_of_chain ht]
    unfold insertTs
    rw [if_pos hab]

theorem loopFlat_ok {f : Nat → Except String (List Timestamp)}
    {g : Nat → List Timestamp} : ∀ {ys : List Nat},
    (∀ y ∈ ys, f y = .ok (g y)) →
    loopFlat f ys = .ok ((ys.map g).flatten)
  | [], _ => rfl
  | y :: ys, h => by
    unfold loopFlat
    rw [h y (by simp), loopFlat_ok (fun z hz => h z (by simp [hz]))]
    rfl

/-- Unsorted output of `generate_year_timestamps` (generation order): the
four commits land 73, 146, 219 and 292 days after January 1st in every year,
because 365 / 5 = 366 / 5 = 73 and the `min` with `days_in_year - 1` never
binds; the stored hour is the computed hour clamped to 23. -/
def yearRaw (y : Nat) (cfg : TimestampConfig) : List Timestamp :=
  [⟨addDays ⟨y, 1, 1⟩ 73, min (if cfg.distribute_times then 9 else cfg.default_hour) 23⟩,
   ⟨addDays ⟨y, 1, 1⟩ 146, min (if cfg.distribute_times then 12 else cfg.default_hour) 23⟩,
   ⟨addDays ⟨y, 1, 1⟩ 219, min (if cfg.distribute_times then 15 else cfg.default_hour) 23⟩,
   ⟨addDays ⟨y, 1, 1⟩ 292, min (if cfg.distribute_times then 18 else cfg.default_hour) 23⟩]

theorem generate_year_eq (y : Nat) (cfg : TimestampConfig) :
    generate_year_timestamps y cfg =
      .ok (if cfg.chronological_order then sortTs (yearRaw y cfg)
           else yearRaw y cfg) := by
  cases hL : is_leap_year y <;>
    simp [generate_year_timestamps, yearRaw, loopCollect, List.range,
      List.range.loop, create_timestamp_eq, from_ymd_opt_jan1, hL]

theorem tsLe_mk {a b : Date} {ha hb : Nat} (hk : dateKey a < dateKey b)
    (hha : ha ≤ 23) : tsLe ⟨a, ha⟩ ⟨b, hb⟩ := by
  show dateKey a * 24 + ha ≤ dateKey b * 24 + hb
  omega

/-- The generation order of a year block is already chronological. -/
theorem chain_yearRaw (y : Nat) (cfg : TimestampConfig) :
    List.Chain' tsLe (yearRaw y cfg) := by
  have h73 := target_facts y 73 (by omega)
  have h146 := target_facts y 146 (by omega)
  have h219 := target_facts y 219 (by omega)
  have h292 := target_facts y 292 (by omega)
  refine List.chain'_cons.2 ⟨?_, List.chain'_cons.2 ⟨?_,
    List.chain'_cons.2 ⟨?_, List.chain'_singleton _⟩⟩⟩
  · exact tsLe_mk (by rw [h73.1, h146.1]; omega) (min_le_right _ _)
  · exact tsLe_mk (by rw [h146.1, h219.1]; omega) (min_le_right _ _)
  · exact tsLe_mk (by rw [h219.1, h292.1]; omega) (min_le_right _ _)

/-- Concatenation of the per-year generation-order blocks of a list of
years, in list order. -/
def yearBlocks (cfg : TimestampConfig) (ys : List Nat) : List Timestamp :=
  (ys.map (fun y => yearRaw y cfg)).flatten

/-- Consecutive-year blocks concatenate into a chronological sequence. -/
theorem chain_yearBlocks (cfg : TimestampConfig) :
    ∀ (n s : Nat), List.Chain' tsLe (yearBlocks cfg (List.range' s n))
  | 0, s => List.chain'_nil
  | n + 1, s => by
    have hrest := chain_yearBlocks cfg n (s + 1)
    have hcons : yearBlocks cfg (List.range' s (n + 1)) =
        yearRaw s cfg ++ yearBlocks cfg (List.range' (s + 1) n) := rfl
    rw [hcons]
    refine (chain_yearRaw s cfg).append hrest ?_
    intro x hx z hz
    cases n with
    | zero => simp [yearBlocks] at hz
    | succ n =>
      rw [show yearBlocks cfg (List.range' (s + 1) (n + 1)) =
        yearRaw (s + 1) cfg ++ yearBlocks cfg (List.range' (s + 2) n) from rfl] at hz
      simp [yearRaw] at hx hz
      have h292 := target_facts s 292 (by omega)
      have h73 := target_facts (s + 1) 73 (by omega)
      rw [← hx, ← hz]
      exact tsLe_mk (by rw [h292.1, h73.1]; omega) (min_le_right _ _)

theorem length_yearBlocks (cfg : TimestampConfig) :
    ∀ (n s : Nat), (yearBlocks cfg (List.range' s n)).length = 4 * n
  | 0, _ => rfl
  | n + 1, s => by
    have hcons : yearBlocks cfg (List.range' s (n + 1)) =
        yearRaw s cfg ++ yearBlocks cfg (List.range' (s + 1) n) := rfl
    rw [hcons, List.length_append, length_yearBlocks cfg n (s + 1)]
    simp [yearRaw]
    omega

/-- Elements of a year block: clamped hour, valid date, right year. -/
theorem mem_yearRaw_props {t : Timestamp} {y : Nat} {cfg : TimestampConfig}
    (ht : t ∈ yearRaw y cfg) :
    t.hour ≤ 23 ∧ dateOk t.date ∧ t.date.year = y := by
  have h73 := target_facts y 73 (by omega)
  have h146 := target_facts y 146 (by omega)
  have h219 := target_facts y 219 (by omega)
  have h292 := target_facts y 292 (by omega)
  simp only [yearRaw, List.mem_cons, List.not_mem_nil, or_false] at ht
  rcases ht with rfl | rfl | rfl | rfl <;>
    exact ⟨min_le_right _ _, by first
      | exact ⟨h73.2.2, h73.2.1⟩ | exact ⟨h146.2.2, h146.2.1⟩
      | exact ⟨h219.2.2, h219.2.1⟩ | exact ⟨h292.2.2, h292.2.1⟩⟩

/-! ## Helper lemmas: range and list generation -/

theorem generate_range_eq (s e : Nat) (cfg : TimestampConfig) :
    generate_timestamps (.range s e) cfg =
      .ok (yearBlocks cfg (List.range' s (e + 1 - s))) := by
  have hyr : ∀ y ∈ List.range' s (e + 1 - s),
      generate_year_timestamps y cfg = .ok (yearRaw y cfg) := by
    intro y _
    rw [generate_year_eq]
    cases hc : cfg.chronological_order
    · simp
    · simp [sortTs_eq_of_chain (chain_yearRaw y cfg)]
  have hflat : loopFlat (fun y => generate_year_timestamps y cfg)
      (List.range' s (e + 1 - s)) =
        .ok (yearBlocks cfg (List.range' s (e + 1 - s))) := loopFlat_ok hyr
  show generate_range_timestamps s e cfg = _
  unfold generate_range_timestamps
  rw [hflat]
  cases hc : cfg.chronological_order
  · simp [hc]
  · simp [hc, sortTs_eq_of_chain (chain_yearBlocks cfg (e + 1 - s) s)]

theorem generate_list_eq (ys : List Nat) (cfg : TimestampConfig) :
    generate_timestamps (.list ys) cfg =
      .ok (if cfg.chronological_order then sortTs (yearBlocks cfg ys)
           else yearBlocks cfg ys) := by
  have hyr : ∀ y ∈ ys, generate_year_timestamps y cfg = .ok (yearRaw y cfg) := by
    intro y _
    rw [generate_year_eq]
    cases hc : cfg.chronological_order
    · simp
    · simp [sortTs_eq_of_chain (chain_yearRaw y cfg)]
  show generate_list_timestamps ys cfg = _
  unfold generate_list_timestamps
  rw [loopFlat_ok hyr]
  rfl

theorem mem_if_sort {t : Timestamp} {l : List Timestamp} {c : Bool}
    (ht : t ∈ (if c then sortTs l else l)) : t ∈ l := by
  cases c
  · simpa using ht
  · exact mem_sortTs.1 (by simpa using ht)

/-- The month generator succeeds on every valid (year, month) pair, with
clamped hours and real calendar days. -/
theorem generate_month_ok (y m : Nat) (cfg : TimestampConfig)
    (h1 : 1 ≤ m) (h2 : m ≤ 12) :
    ∃ ts, generate_timestamps (.yearMonth y m) cfg = .ok ts ∧
      ∀ t ∈ ts, t.hour ≤ 23 ∧ dateOk t.date := by
  show ∃ ts, generate_month_timestamps y m cfg = .ok ts ∧ _
  interval_cases m <;> cases hL : is_leap_year y <;>
  · simp only [generate_month_timestamps, days_in_month, monthLen, loopCollect,
      List.range, List.range.loop, from_ymd_opt, create_timestamp_eq, hL,
      if_true, if_false, Bool.false_eq_true, reduceIte]
    norm_num
    intro t ht
    have hm2 := mem_if_sort ht
    simp only [List.mem_cons, List.not_mem_nil, or_false] at hm2
    rcases hm2 with rfl | rfl <;>
      exact ⟨min_le_right _ _, by simp [dateOk_mk, monthLen, hL]⟩

/-- The Year(y) result under a configuration (output of the year generator,
including its final conditional sort). -/
def yearOut (y : Nat) (cfg : TimestampConfig) : List Timestamp :=
  if cfg.chronological_order then sortTs (yearRaw y cfg) else yearRaw y cfg

/-- The conditional sort inside a year block is the identity: generation
order is already chronological. -/
theorem yearOut_eq (y : Nat) (cfg : TimestampConfig) :
    yearOut y cfg = yearRaw y cfg := by
  unfold yearOut
  cases hc : cfg.chronological_order
  · simp
  · simp [sortTs_eq_of_chain (chain_yearRaw y cfg)]

/-- Timestamp list stated by the specification for `Year(y)`: the i-th
timestamp lies `min(D/5*(i+1), D-1)` days after January 1st, at hour
`9 + (i*3) mod 13` under distribution and `default_hour` otherwise. -/
def yearClaim (y : Nat) (cfg : TimestampConfig) : List Timestamp :=
  (List.range 4).map fun i =>
    ⟨addDays ⟨y, 1, 1⟩
        (min ((if is_leap_year y then 366 else 365) / 5 * (i + 1))
             ((if is_leap_year y then 366 else 365) - 1)),
     if cfg.distribute_times then 9 + i * 3 % 13 else cfg.default_hour⟩

theorem yearClaim_eq (y : Nat) (cfg : TimestampConfig)
    (h : cfg.default_hour ≤ 23) : yearClaim y cfg = yearRaw y cfg := by
  cases hD : cfg.distribute_times <;> cases hL : is_leap_year y <;>
    simp [yearClaim, yearRaw, hD, hL, List.range, List.range.loop,
      Nat.min_eq_left h, Nat.min_def]

/-! ## Claim theorems: generator -/

/-- C1: for every year in [1970, 2030] and every configuration with a valid
default hour, `generate` on `Year(y)` produces exactly the four timestamps
given by the specification formula (day offset `min(D/5*(i+1), D-1)` from
January 1st, hour `9 + (i*3) mod 13` under distribution, else
`default_hour`); under the default configuration all four timestamps have
year `y`, are sorted ascending, and carry at least two distinct hours. -/
theorem claim_C1 : ∀ y : Nat, 1970 ≤ y → y ≤ 2030 →
    ∀ cfg : TimestampConfig, cfg.default_hour ≤ 23 →
    (generate_timestamps (.year y) cfg = .ok (yearClaim y cfg) ∧
     (yearClaim y cfg).length = 4) ∧
    (cfg = defaultConfig →
      (∀ t ∈ yearClaim y cfg, t.date.year = y) ∧
      List.Chain' tsLe (yearClaim y cfg) ∧
      ∃ t1 ∈ yearClaim y cfg, ∃ t2 ∈ yearClaim y cfg, t1.hour ≠ t2.hour) := by
  intro y hy1 hy2 cfg hdh
  have hC := yearClaim_eq y cfg hdh
  constructor
  · constructor
    · show generate_year_timestamps y cfg = _
      rw [generate_year_eq, hC]
      cases hc : cfg.chronological_order
      · simp
      · simp [sortTs_eq_of_chain (chain_yearRaw y cfg)]
    · rw [hC]; rfl
  · intro hcfg
    refine ⟨?_, ?_, ?_⟩
    · intro t ht
      rw [hC] at ht
      exact (mem_yearRaw_props ht).2.2
    · rw [hC]; exact chain_yearRaw y cfg
    · rw [hC]
      subst hcfg
      exact ⟨_, List.mem_cons_self _ _, _,
        List.mem_cons_of_mem _ (List.mem_cons_self _ _),
        by norm_num [yearRaw, defaultConfig, Nat.min_def]⟩

theorem claim_C1_witness :
    generate_timestamps (.year 1990) defaultConfig =
      .ok (yearClaim 1990 defaultConfig) :=
  ((claim_C1 1990 (by norm_num) (by norm_num) defaultConfig
    (by norm_num [defaultConfig])).1).1

/-- C3: for every valid range and every configuration, `generate` on
`Range(start, end)` is the concatenation of the `Year(y)` results for the
years in ascending order — 4*(end-start+1) timestamps — and that output is
chronologically sorted even when `chronological_order` is false; for
`List`, when `chronological_order` is false the per-year blocks stay in
list order (concretely, for the list [1995, 1990] the output is not
sorted). -/
theorem claim_C3 : ∀ (s e : Nat) (cfg : TimestampConfig),
    1970 ≤ s → e ≤ 2030 → s ≤ e → e - s + 1 ≤ 50 →
    ((∀ y, generate_timestamps (.year y) cfg = .ok (yearOut y cfg)) ∧
     generate_timestamps (.range s e) cfg =
       .ok (((List.range' s (e - s + 1)).map (fun y => yearOut y cfg)).flatten) ∧
     (((List.range' s (e - s + 1)).map (fun y => yearOut y cfg)).flatten).length =
       4 * (e - s + 1) ∧
     List.Chain' tsLe
       (((List.range' s (e - s + 1)).map (fun y => yearOut y cfg)).flatten)) ∧
    (∀ ys : List Nat, cfg.chronological_order = false →
      generate_timestamps (.list ys) cfg =
        .ok ((ys.map (fun y => yearOut y cfg)).flatten)) ∧
    ¬ List.Chain' tsLe
        (([1995, 1990].map (fun y => yearOut y ⟨18, true, false⟩)).flatten) := by
  intro s e cfg hs he hse hspan
  have hcount : e + 1 - s = e - s + 1 := by omega
  have hmap : ∀ (l : List Nat), l.map (fun y => yearOut y cfg) =
      l.map (fun y => yearRaw y cfg) := fun l => List.map_congr_left
    (fun y _ => yearOut_eq y cfg)
  refine ⟨⟨?_, ?_, ?_, ?_⟩, ?_, ?_⟩
  · intro y
    show generate_year_timestamps y cfg = _
    rw [generate_year_eq]
    rfl
  · rw [hmap]
    have := generate_range_eq s e cfg
    rw [hcount] at this
    exact this
  · rw [hmap]
    exact length_yearBlocks cfg (e - s + 1) s
  · rw [hmap]
    exact chain_yearBlocks cfg (e - s + 1) s
  · intro ys hc
    rw [generate_list_eq, hc]
    simp only [if_false, Bool.false_eq_true]
    rw [show yearBlocks cfg ys = (ys.map (fun y => yearRaw y cfg)).flatten from rfl]
    rw [← hmap]
  · intro hch
    have hflat : ([1995, 1990].map (fun y => yearOut y ⟨18, true, false⟩)).flatten =
        yearRaw 1995 ⟨18, true, false⟩ ++ (yearRaw 1990 ⟨18, true, false⟩ ++ []) := by
      rw [show ([1995, 1990].map (fun y => yearOut y ⟨18, true, false⟩)).flatten =
        yearOut 1995 ⟨18, true, false⟩ ++ (yearOut 1990 ⟨18, true, false⟩ ++ []) from rfl,
        yearOut_eq, yearOut_eq]
    rw [hflat] at hch
    have hbound := (List.chain'_append.1 hch).2.2
    have h292 := target_facts 1995 292 (by omega)
    have h73 := target_facts 1990 73 (by omega)
    have := hbound ⟨addDays ⟨1995, 1, 1⟩ 292, min 18 23⟩ (by simp [yearRaw])
      ⟨addDays ⟨1990, 1, 1⟩ 73, min 9 23⟩ (by simp [yearRaw])
    have hlt : tsKey ⟨addDays ⟨1995, 1, 1⟩ 292, min 18 23⟩ ≤
        tsKey ⟨addDays ⟨1990, 1, 1⟩ 73, min 9 23⟩ := this
    unfold tsKey at hlt
    rw [show (Timestamp.mk (addDays ⟨1995, 1, 1⟩ 292) (min 18 23)).date =
      addDays ⟨1995, 1, 1⟩ 292 from rfl] at hlt
    rw [show (Timestamp.mk (addDays ⟨1990, 1, 1⟩ 73) (min 9 23)).date =
      addDays ⟨1990, 1, 1⟩ 73 from rfl] at hlt
    rw [h292.1, h73.1] at hlt
    have hm1 : min 18 23 = 18 := by norm_num
    have hm2 : min 9 23 = 9 := by norm_num
    rw [show (Timestamp.mk (addDays ⟨1995, 1, 1⟩ 292) (min 18 23)).hour =
      min 18 23 from rfl, show (Timestamp.mk (addDays ⟨1990, 1, 1⟩ 73)
      (min 9 23)).hour = min 9 23 from rfl, hm1, hm2] at hlt
    omega

theorem claim_C3_witness :
    generate_timestamps (.range 1990 1992) defaultConfig =
      .ok (((List.range' 1990 3).map (fun y => yearOut y defaultConfig)).flatten) :=
  ((claim_C3 1990 1992 defaultConfig (by norm_num) (by norm_num) (by norm_num)
    (by norm_num)).1).2.1

/-- Data-model invariants of a canonical date value (specification section 3). -/
def ValidInput : DateInput → Prop
  | .year y => 1970 ≤ y ∧ y ≤ 2030
  | .yearMonth y m => (1970 ≤ y ∧ y ≤ 2030) ∧ 1 ≤ m ∧ m ≤ 12
  | .fullDate d => (1970 ≤ d.year ∧ d.year ≤ 2030) ∧ dateOk d
  | .range s e => (1970 ≤ s ∧ e ≤ 2030) ∧ s ≤ e ∧ e - s + 1 ≤ 50
  | .list ys => ys ≠ [] ∧ ys.Nodup ∧ ∀ y ∈ ys, 1970 ≤ y ∧ y ≤ 2030

/-- C7: on every canonical date value satisfying the data-model invariants,
`generate` returns Ok under every configuration; every produced hour is
clamped to at most 23 and every produced day is a real day of its month —
the internal calendar-construction error branches are unreachable. -/
theorem claim_C7 : ∀ (inp : DateInput) (cfg : TimestampConfig), ValidInput inp →
    ∃ ts, generate_timestamps inp cfg = .ok ts ∧
      ∀ t ∈ ts, t.hour ≤ 23 ∧ dateOk t.date := by
  intro inp cfg hv
  cases inp with
  | year y =>
    refine ⟨yearOut y cfg, ?_, ?_⟩
    · show generate_year_timestamps y cfg = _
      rw [generate_year_eq]
      rfl
    · intro t ht
      rw [yearOut_eq] at ht
      exact ⟨(mem_yearRaw_props ht).1, (mem_yearRaw_props ht).2.1⟩
  | yearMonth y m => exact generate_month_ok y m cfg hv.2.1 hv.2.2
  | fullDate d =>
    refine ⟨[⟨d, min cfg.default_hour 23⟩], ?_, ?_⟩
    · show generate_single_timestamp d cfg = _
      unfold generate_single_timestamp
      rw [create_timestamp_eq]
    · intro t ht
      simp only [List.mem_cons, List.not_mem_nil, or_false] at ht
      subst ht
      exact ⟨min_le_right _ _, hv.2⟩
  | range s e =>
    refine ⟨_, generate_range_eq s e cfg, ?_⟩
    intro t ht
    unfold yearBlocks at ht
    simp only [List.mem_flatten, List.mem_map] at ht
    obtain ⟨l, ⟨y, _, rfl⟩, hty⟩ := ht
    exact ⟨(mem_yearRaw_props hty).1, (mem_yearRaw_props hty).2.1⟩
  | list ys =>
    refine ⟨_, generate_list_eq ys cfg, ?_⟩
    intro t ht
    have ht2 := mem_if_sort ht
    unfold yearBlocks at ht2
    simp only [List.mem_flatten, List.mem_map] at ht2
    obtain ⟨l, ⟨y, _, rfl⟩, hty⟩ := ht2
    exact ⟨(mem_yearRaw_props hty).1, (mem_yearRaw_props hty).2.1⟩

theorem claim_C7_witness :
    ∃ ts, generate_timestamps (.year 1990) defaultConfig = .ok ts ∧
      ∀ t ∈ ts, t.hour ≤ 23 ∧ dateOk t.date :=
  claim_C7 (.year 1990) defaultConfig ⟨by norm_num, by norm_num⟩

/-! ## Helper lemmas: character classes and digit readers -/

theorem not_digit_of_alpha {c : Char} (h : isAlphaC c = true) :
    isDigitC c = false := by
  rw [Bool.eq_false_iff]
  intro hd
  simp only [isAlphaC, isDigitC, Bool.or_eq_true, Bool.and_eq_true,
    decide_eq_true_eq] at h hd
  omega

theorem not_ws_of_digit {c : Char} (h : isDigitC c = true) :
    isWsC c = false := by
  rw [Bool.eq_false_iff]
  intro hw
  simp only [isWsC, isDigitC, Bool.or_eq_true, Bool.and_eq_true,
    decide_eq_true_eq] at h hw
  omega

theorem not_comma_of_ws {c : Char} (h : isWsC c = true) : c ≠ ',' := by
  intro hc
  subst hc
  simp [isWsC] at h

theorem not_comma_of_digit {c : Char} (h : isDigitC c = true) : c ≠ ',' := by
  intro hc
  subst hc
  simp [isDigitC] at h

theorem not_comma_of_alpha {c : Char} (h : isAlphaC c = true) : c ≠ ',' := by
  intro hc
  subst hc
  simp [isAlphaC] at h

theorem read4Digits_some {cs : List Char} {y : Nat} {r : List Char}
    (h : read4Digits cs = some (y, r)) :
    (cs.takeWhile isDigitC).length = 4 ∧
    digitsToNat (cs.takeWhile isDigitC) = y ∧ cs.dropWhile isDigitC = r := by
  unfold read4Digits at h
  split at h
  · simp only [Option.some.injEq, Prod.mk.injEq] at h
    exact ⟨by assumption, h.1, h.2⟩
  · exact absurd h (by simp)

theorem read12Digits_some {cs : List Char} {y : Nat} {r : List Char}
    (h : read12Digits cs = some (y, r)) :
    1 ≤ (cs.takeWhile isDigitC).length ∧ (cs.takeWhile isDigitC).length ≤ 2 ∧
    digitsToNat (cs.takeWhile isDigitC) = y ∧ cs.dropWhile isDigitC = r := by
  unfold read12Digits at h
  split at h
  · simp only [Option.some.injEq, Prod.mk.injEq] at h
    rename_i hc
    exact ⟨hc.1, hc.2, h.1, h.2⟩
  · exact absurd h (by simp)

/-- A list whose digit run has positive length starts with a digit. -/
theorem head_digit_of_take {l : List Char}
    (h : 1 ≤ (l.takeWhile isDigitC).length) :
    ∃ c cs', l = c :: cs' ∧ isDigitC c = true := by
  cases l with
  | nil => simp at h
  | cons c cs' =>
    by_cases hc : isDigitC c
    · exact ⟨c, cs', rfl, hc⟩
    · rw [List.takeWhile_cons_of_neg (by simpa using hc)] at h
      simp at h

theorem dropWhile_head_not {p : Char → Bool} {c : Char} {cs' : List Char}
    (h : p c = false) : (c :: cs').dropWhile p = c :: cs' := by
  simp [List.dropWhile_cons, h]

/-- No comma occurs in a digit run, a whitespace run, or a letter run. -/
theorem no_comma_take_digit (l : List Char) :
    ',' ∉ l.takeWhile isDigitC := fun h =>
  absurd rfl (not_comma_of_digit (List.mem_takeWhile_imp h))

theorem no_comma_take_ws (l : List Char) :
    ',' ∉ l.takeWhile isWsC := fun h =>
  absurd rfl (not_comma_of_ws (List.mem_takeWhile_imp h))

theorem no_comma_take_alpha (l : List Char) :
    ',' ∉ l.takeWhile isAlphaC := fun h =>
  absurd rfl (not_comma_of_alpha (List.mem_takeWhile_imp h))

theorem no_comma_all_ws {l : List Char} (h : l.all isWsC) : ',' ∉ l := by
  intro hm
  exact absurd rfl (not_comma_of_ws (by
    rw [List.all_eq_true] at h
    exact h _ hm))

/-- Splitting a list at its whitespace run, digit run, or letter run. -/
theorem split_take_drop (p : Char → Bool) (l : List Char) :
    l = l.takeWhile p ++ l.dropWhile p :=
  (List.takeWhile_append_dropWhile p l).symm

/-! ## Helper lemmas: shape interplay -/

theorem rangeShape_no_comma {cs : List Char} {a b : Nat}
    (h : rangeShape cs = some (a, b)) : ',' ∉ cs := by
  unfold rangeShape at h
  split at h
  next => exact absurd h (by simp)
  next a1 r1 heq =>
    split at h
    next rest heq2 =>
      split at h
      next => exact absurd h (by simp)
      next b1 r2 heq3 =>
        split at h
        next hall =>
          obtain ⟨_, _, hdrop1⟩ := read4Digits_some heq
          obtain ⟨_, _, hdrop2⟩ := read4Digits_some heq3
          intro hmem
          have hm2 : ',' ∈ cs.takeWhile isWsC ++ cs.dropWhile isWsC := by
            rw [← split_take_drop]; exact hmem
          rcases List.mem_append.1 hm2 with h1 | h2
          · exact no_comma_take_ws _ h1
          · have hm3 : ',' ∈ (cs.dropWhile isWsC).takeWhile isDigitC ++ r1 := by
              rw [← hdrop1, ← split_take_drop]; exact h2
            rcases List.mem_append.1 hm3 with h3 | h4m
            · exact no_comma_take_digit _ h3
            · have hm4 : ',' ∈ r1.takeWhile isWsC ++ ('-' :: rest) := by
                rw [← heq2, ← split_take_drop]; exact h4m
              rcases List.mem_append.1 hm4 with h5 | h6
              · exact no_comma_take_ws _ h5
              · rcases List.mem_cons.1 h6 with h7 | h8
                · exact absurd h7 (by decide)
                · have hm5 : ',' ∈ rest.takeWhile isWsC ++
                      ((rest.dropWhile isWsC).takeWhile isDigitC ++ r2) := by
                    rw [← hdrop2, ← split_take_drop, ← split_take_drop]
                    exact h8
                  rcases List.mem_append.1 hm5 with h9 | h10
                  · exact no_comma_take_ws _ h9
                  · rcases List.mem_append.1 h10 with h11 | h12
                    · exact no_comma_take_digit _ h11
                    · exact no_comma_all_ws hall h12
        next => exact absurd h (by simp)
    next hne => exact absurd h (by simp)

/-- Structure of a successful full-date match. -/
theorem fullDateShape_some {cs : List Char} {y m d : Nat}
    (h : fullDateShape cs = some (y, m, d)) :
    ∃ rest rest2 r3,
      read4Digits (cs.dropWhile isWsC) = some (y, '-' :: rest) ∧
      read12Digits rest = some (m, '-' :: rest2) ∧
      read12Digits rest2 = some (d, r3) ∧
      r3.all isWsC = true := by
  unfold fullDateShape at h
  split at h
  next => exact absurd h (by simp)
  next y1 r1 heq =>
    split at h
    next rest =>
      split at h
      next => exact absurd h (by simp)
      next m1 r2 heq3 =>
        split at h
        next rest2 =>
          split at h
          next => exact absurd h (by simp)
          next d1 r3 heq5 =>
            split at h
            next hall =>
              simp only [Option.some.injEq, Prod.mk.injEq] at h
              obtain ⟨hy, hm, hd⟩ := h
              subst hy; subst hm; subst hd
              exact ⟨rest, rest2, r3, heq, heq3, heq5, hall⟩
            next => exact absurd h (by simp)
        next hne => exact absurd h (by simp)
    next hne => exact absurd h (by simp)

/-- Structure of a successful numeric year-month match. -/
theorem ymShape_numeric_some {cs : List Char} {y m : Nat}
    (h : yearMonthShape cs = some (.numeric y m)) :
    ∃ rest r2,
      read4Digits (cs.dropWhile isWsC) = some (y, '-' :: rest) ∧
      read12Digits rest = some (m, r2) ∧ r2.all isWsC = true := by
  unfold yearMonthShape at h
  split at h
  next y1 r1 heq =>
    split at h
    next rest =>
      split at h
      next => exact absurd h (by simp)
      next m1 r2 heq3 =>
        split at h
        next hall =>
          simp only [Option.some.injEq, YMMatch.numeric.injEq] at h
          obtain ⟨hy, hm⟩ := h
          subst hy; subst hm
          exact ⟨rest, r2, heq, heq3, hall⟩
        next => exact absurd h (by simp)
    next hne => exact absurd h (by simp)
  next heq =>
    split at h
    next hlen =>
      split at h
      next => exact absurd h (by simp)
      next hws =>
        split at h
        next => exact absurd h (by simp)
        next y2 r2 heq4 =>
          split at h
          next => exact absurd h (by simp)
          next => exact absurd h (by simp)
    next => exact absurd h (by simp)

/-- Structure of a successful named year-month match. -/
theorem ymShape_named_some {cs : List Char} {nm : List Char} {y : Nat}
    (h : yearMonthShape cs = some (.named nm y)) :
    read4Digits (cs.dropWhile isWsC) = none ∧
    nm = (cs.dropWhile isWsC).takeWhile isAlphaC ∧
    3 ≤ nm.length ∧ nm.length ≤ 9 ∧
    ∃ r2, read4Digits
        (((cs.dropWhile isWsC).dropWhile isAlphaC).dropWhile isWsC) =
          some (y, r2) ∧ r2.all isWsC = true := by
  unfold yearMonthShape at h
  split at h
  next y1 r1 heq =>
    split at h
    next rest =>
      split at h
      next => exact absurd h (by simp)
      next m1 r2 heq3 =>
        split at h
        next => exact absurd h (by simp)
        next => exact absurd h (by simp)
    next hne => exact absurd h (by simp)
  next heq =>
    split at h
    next hlen =>
      split at h
      next => exact absurd h (by simp)
      next hws =>
        split at h
        next => exact absurd h (by simp)
        next y2 r2 heq4 =>
          split at h
          next hall =>
            simp only [Option.some.injEq, YMMatch.named.injEq] at h
            obtain ⟨hnm, hy⟩ := h
            subst hnm; subst hy
            exact ⟨heq, rfl, hlen.1, hlen.2, r2, heq4, hall⟩
          next => exact absurd h (by simp)
    next => exact absurd h (by simp)

theorem read4Digits_none_of_short {l : List Char}
    (h : (l.takeWhile isDigitC).length ≤ 2) : read4Digits l = none := by
  unfold read4Digits
  rw [if_neg]
  omega

theorem rangeShape_none_of {cs : List Char} {a : Nat} {r1 rest : List Char}
    (h1 : read4Digits (cs.dropWhile isWsC) = some (a, r1))
    (h2 : r1.dropWhile isWsC = '-' :: rest)
    (h3 : read4Digits (rest.dropWhile isWsC) = none) :
    rangeShape cs = none := by
  unfold rangeShape
  simp only [h1, h2, h3]

/-- A full-date-shaped string is not range-shaped: after the dash it has a
run of only one or two digits, where the range regex needs four. -/
theorem fullDate_range_none {cs : List Char} {y m d : Nat}
    (h : fullDateShape cs = some (y, m, d)) : rangeShape cs = none := by
  obtain ⟨rest, rest2, r3, h4, h12, _, _⟩ := fullDateShape_some h
  obtain ⟨hge1, hle2, _, _⟩ := read12Digits_some h12
  obtain ⟨c, cs2, hrest, hcd⟩ := head_digit_of_take hge1
  refine rangeShape_none_of h4 (dropWhile_head_not (by decide)) ?_
  rw [hrest, dropWhile_head_not (not_ws_of_digit hcd), ← hrest]
  exact read4Digits_none_of_short hle2

/-- A numeric year-month-shaped string is not range-shaped, for the same
reason. -/
theorem ymNumeric_range_none {cs : List Char} {y m : Nat}
    (h : yearMonthShape cs = some (.numeric y m)) : rangeShape cs = none := by
  obtain ⟨rest, r2, h4, h12, _⟩ := ymShape_numeric_some h
  obtain ⟨hge1, hle2, _, _⟩ := read12Digits_some h12
  obtain ⟨c, cs2, hrest, hcd⟩ := head_digit_of_take hge1
  refine rangeShape_none_of h4 (dropWhile_head_not (by decide)) ?_
  rw [hrest, dropWhile_head_not (not_ws_of_digit hcd), ← hrest]
  exact read4Digits_none_of_short hle2

theorem not_dash_of_ws {c : Char} (h : isWsC c = true) : c ≠ '-' := by
  intro hc
  subst hc
  simp [isWsC] at h

/-- A numeric year-month-shaped string is not full-date-shaped: after the
month digits only whitespace remains, never a second dash. -/
theorem ymNumeric_fullDate_none {cs : List Char} {y m : Nat}
    (h : yearMonthShape cs = some (.numeric y m)) : fullDateShape cs = none := by
  obtain ⟨rest, r2, h4, h12, hall⟩ := ymShape_numeric_some h
  unfold fullDateShape
  simp only [h4, h12]
  cases hr2 : r2 with
  | nil => rfl
  | cons c r2' =>
    have hcw : isWsC c = true := by
      rw [hr2, List.all_cons, Bool.and_eq_true] at hall
      exact hall.1
    split
    next heqc =>
      exfalso
      injection heqc with hh _
      exact absurd hh (not_dash_of_ws hcw)
    next => rfl

/-- A named year-month-shaped string starts with a letter, so neither the
range nor the full-date pattern (both of which need four leading digits)
matches it. -/
theorem ymNamed_others_none {cs : List Char} {nm : List Char} {y : Nat}
    (h : yearMonthShape cs = some (.named nm y)) :
    rangeShape cs = none ∧ fullDateShape cs = none := by
  obtain ⟨h4, _, _, _, _⟩ := ymShape_named_some h
  constructor
  · unfold rangeShape
    simp only [h4]
  · unfold fullDateShape
    simp only [h4]

theorem fullDate_no_comma {cs : List Char} {y m d : Nat}
    (h : fullDateShape cs = some (y, m, d)) : ',' ∉ cs := by
  obtain ⟨rest, rest2, r3, h4, h12, h12b, hall⟩ := fullDateShape_some h
  obtain ⟨_, _, hdrop1⟩ := read4Digits_some h4
  obtain ⟨_, _, _, hdrop2⟩ := read12Digits_some h12
  obtain ⟨_, _, _, hdrop3⟩ := read12Digits_some h12b
  intro hmem
  have hm2 : ',' ∈ cs.takeWhile isWsC ++ cs.dropWhile isWsC := by
    rw [← split_take_drop]; exact hmem
  rcases List.mem_append.1 hm2 with h1 | h2
  · exact no_comma_take_ws _ h1
  · have hm3 : ',' ∈ (cs.dropWhile isWsC).takeWhile isDigitC ++ ('-' :: rest) := by
      rw [← hdrop1, ← split_take_drop]; exact h2
    rcases List.mem_append.1 hm3 with h3 | h4m
    · exact no_comma_take_digit _ h3
    · rcases List.mem_cons.1 h4m with h5 | h6
      · exact absurd h5 (by decide)
      · have hm4 : ',' ∈ rest.takeWhile isDigitC ++ ('-' :: rest2) := by
          rw [← hdrop2, ← split_take_drop]; exact h6
        rcases List.mem_append.1 hm4 with h7 | h8
        · exact no_comma_take_digit _ h7
        · rcases List.mem_cons.1 h8 with h9 | h10
          · exact absurd h9 (by decide)
          · have hm5 : ',' ∈ rest2.takeWhile isDigitC ++ r3 := by
              rw [← hdrop3, ← split_take_drop]; exact h10
            rcases List.mem_append.1 hm5 with h11 | h12m
            · exact no_comma_take_digit _ h11
            · exact no_comma_all_ws hall h12m

theorem ymNumeric_no_comma {cs : List Char} {y m : Nat}
    (h : yearMonthShape cs = some (.numeric y m)) : ',' ∉ cs := by
  obtain ⟨rest, r2, h4, h12, hall⟩ := ymShape_numeric_some h
  obtain ⟨_, _, hdrop1⟩ := read4Digits_some h4
  obtain ⟨_, _, _, hdrop2⟩ := read12Digits_some h12
  intro hmem
  have hm2 : ',' ∈ cs.takeWhile isWsC ++ cs.dropWhile isWsC := by
    rw [← split_take_drop]; exact hmem
  rcases List.mem_append.1 hm2 with h1 | h2
  · exact no_comma_take_ws _ h1
  · have hm3 : ',' ∈ (cs.dropWhile isWsC).takeWhile isDigitC ++ ('-' :: rest) := by
      rw [← hdrop1, ← split_take_drop]; exact h2
    rcases List.mem_append.1 hm3 with h3 | h4m
    · exact no_comma_take_digit _ h3
    · rcases List.mem_cons.1 h4m with h5 | h6
      · exact absurd h5 (by decide)
      · have hm4 : ',' ∈ rest.takeWhile isDigitC ++ r2 := by
          rw [← hdrop2, ← split_take_drop]; exact h6
        rcases List.mem_append.1 hm4 with h7 | h8
        · exact no_comma_take_digit _ h7
        · exact no_comma_all_ws hall h8

theorem ymNamed_no_comma {cs : List Char} {nm : List Char} {y : Nat}
    (h : yearMonthShape cs = some (.named nm y)) : ',' ∉ cs := by
  obtain ⟨_, _, _, _, r2, h4b, hall⟩ := ymShape_named_some h
  obtain ⟨_, _, hdrop3⟩ := read4Digits_some h4b
  intro hmem
  have hm2 : ',' ∈ cs.takeWhile isWsC ++ cs.dropWhile isWsC := by
    rw [← split_take_drop]; exact hmem
  rcases List.mem_append.1 hm2 with h1 | h2
  · exact no_comma_take_ws _ h1
  · have hm3 : ',' ∈ (cs.dropWhile isWsC).takeWhile isAlphaC ++
        ((cs.dropWhile isWsC).dropWhile isAlphaC) := by
      rw [← split_take_drop]; exact h2
    rcases List.mem_append.1 hm3 with h3 | h4m
    · exact no_comma_take_alpha _ h3
    · have hm4 : ',' ∈ ((cs.dropWhile isWsC).dropWhile isAlphaC).takeWhile isWsC ++
          ((((cs.dropWhile isWsC).dropWhile isAlphaC).dropWhile isWsC).takeWhile isDigitC
            ++ r2) := by
        rw [← hdrop3, ← split_take_drop, ← split_take_drop]
        exact h4m
      rcases List.mem_append.1 hm4 with h5 | h6
      · exact no_comma_take_ws _ h5
      · rcases List.mem_append.1 h6 with h7 | h8
        · exact no_comma_take_digit _ h7
        · exact no_comma_all_ws hall h8

/-! ## Helper lemmas: reduction of `parse` to its branches -/

theorem parse_list_eq {s : String} (h : ',' ∈ wsTrim s.toList) :
    parse s = parse_list (wsTrim s.toList) := by
  have hne : wsTrim s.toList ≠ [] := List.ne_nil_of_mem h
  simp only [parse]
  rw [if_neg hne, if_pos h]

theorem parse_range_eq {s : String} {a b : Nat}
    (h : rangeShape (wsTrim s.toList) = some (a, b)) :
    parse s = (match validate_year_range a b with
      | .error e => .error e
      | .ok _ => .ok (.range a b)) := by
  have hnc : ¬ ',' ∈ wsTrim s.toList := rangeShape_no_comma h
  have hne : wsTrim s.toList ≠ [] := by
    intro h0
    rw [h0, show rangeShape ([] : List Char) = none from by decide] at h
    exact absurd h (by simp)
  simp only [parse]
  rw [if_neg hne, if_neg hnc]
  simp only [h]

theorem parse_fullDate_eq {s : String} {y m d : Nat}
    (h : fullDateShape (wsTrim s.toList) = some (y, m, d)) :
    parse s = (match create_naive_date y m d with
      | .error e => .error e
      | .ok date => .ok (.fullDate date)) := by
  have hnc : ¬ ',' ∈ wsTrim s.toList := fullDate_no_comma h
  have hrn := fullDate_range_none h
  have hne : wsTrim s.toList ≠ [] := by
    intro h0
    rw [h0, show fullDateShape ([] : List Char) = none from by decide] at h
    exact absurd h (by simp)
  simp only [parse]
  rw [if_neg hne, if_neg hnc]
  simp only [hrn, h]

theorem parse_ymNumeric_eq {s : String} {y m : Nat}
    (h : yearMonthShape (wsTrim s.toList) = some (.numeric y m)) :
    parse s = (match validate_year y with
      | .error e => .error e
      | .ok _ =>
        match validate_month m with
        | .error e => .error e
        | .ok _ => .ok (.yearMonth y m)) := by
  have hnc : ¬ ',' ∈ wsTrim s.toList := ymNumeric_no_comma h
  have hrn := ymNumeric_range_none h
  have hfn := ymNumeric_fullDate_none h
  have hne : wsTrim s.toList ≠ [] := by
    intro h0
    rw [h0, show yearMonthShape ([] : List Char) = none from by decide] at h
    exact absurd h (by simp)
  simp only [parse]
  rw [if_neg hne, if_neg hnc]
  simp only [hrn, hfn, h]

theorem parse_ymNamed_eq {s : String} {nm : List Char} {y : Nat}
    (h : yearMonthShape (wsTrim s.toList) = some (.named nm y)) :
    parse s = (match parse_month_name nm with
      | .error e => .error e
      | .ok m =>
        match validate_year y with
        | .error e => .error e
        | .ok _ => .ok (.yearMonth y m)) := by
  have hnc : ¬ ',' ∈ wsTrim s.toList := ymNamed_no_comma h
  obtain ⟨hrn, hfn⟩ := ymNamed_others_none h
  have hne : wsTrim s.toList ≠ [] := by
    intro h0
    rw [h0, show yearMonthShape ([] : List Char) = none from by decide] at h
    exact absurd h (by simp)
  simp only [parse]
  rw [if_neg hne, if_neg hnc]
  simp only [hrn, hfn, h]

/-! ## Helper lemmas: validators -/

theorem validate_year_ok {y : Nat} (h : 1970 ≤ y ∧ y ≤ 2030) :
    validate_year y = .ok () := by
  unfold validate_year
  rw [if_neg]
  omega

theorem validate_year_err {y : Nat} (h : ¬(1970 ≤ y ∧ y ≤ 2030)) :
    validate_year y = .error (.yearOutOfRange y) := by
  unfold validate_year
  rw [if_pos]
  omega

theorem validate_month_ok {m : Nat} (h : 1 ≤ m ∧ m ≤ 12) :
    validate_month m = .ok () := by
  unfold validate_month
  rw [if_neg]
  omega

theorem validate_month_err {m : Nat} (h : ¬(1 ≤ m ∧ m ≤ 12)) :
    validate_month m = .error (.monthOutOfRange m) := by
  unfold validate_month
  rw [if_pos]
  omega

theorem validate_day_ok {d : Nat} (h : 1 ≤ d ∧ d ≤ 31) :
    validate_day d = .ok () := by
  unfold validate_day
  rw [if_neg]
  omega

theorem validate_day_err {d : Nat} (h : ¬(1 ≤ d ∧ d ≤ 31)) :
    validate_day d = .error (.dayOutOfRange d) := by
  unfold validate_day
  rw [if_pos]
  omega

/-! ## Claim theorems: parser -/

/-- C5: an input shaped as two four-digit numbers around a dash is
recognized as a Range; both years must be in [1970, 2030], the start must
not exceed the end (else `StartAfterEnd`), and the inclusive span must be
at most 50 years (else `TooLarge`); `parse "1995-1990"` fails with
`StartAfterEnd` and `parse "1970-2025"` fails with `TooLarge`. -/
theorem claim_C5 : ∀ (s : String) (a b : Nat),
    rangeShape (wsTrim s.toList) = some (a, b) →
    (parse s = (match validate_year_range a b with
       | .error e => .error e
       | .ok _ => .ok (.range a b)) ∧
     (¬(1970 ≤ a ∧ a ≤ 2030) →
       validate_year_range a b = .error (.yearOutOfRange a)) ∧
     ((1970 ≤ a ∧ a ≤ 2030) → ¬(1970 ≤ b ∧ b ≤ 2030) →
       validate_year_range a b = .error (.yearOutOfRange b)) ∧
     ((1970 ≤ a ∧ a ≤ 2030) → (1970 ≤ b ∧ b ≤ 2030) → b < a →
       parse s = .error (.startAfterEnd a b)) ∧
     ((1970 ≤ a ∧ a ≤ 2030) → (1970 ≤ b ∧ b ≤ 2030) → a ≤ b → 50 < b - a + 1 →
       parse s = .error (.tooLarge a b)) ∧
     ((1970 ≤ a ∧ a ≤ 2030) → (1970 ≤ b ∧ b ≤ 2030) → a ≤ b → b - a + 1 ≤ 50 →
       parse s = .ok (.range a b))) ∧
    parse "1995-1990" = .error (.startAfterEnd 1995 1990) ∧
    parse "1970-2025" = .error (.tooLarge 1970 2025) := by
  intro s a b h
  have hpe := parse_range_eq h
  refine ⟨⟨hpe, ?_, ?_, ?_, ?_, ?_⟩, by decide, by decide⟩
  · intro ha
    unfold validate_year_range
    rw [validate_year_err ha]
  · intro ha hb
    unfold validate_year_range
    rw [validate_year_ok ha]
    simp only [validate_year_err hb]
  · intro ha hb hba
    rw [hpe]
    unfold validate_year_range
    rw [validate_year_ok ha]
    simp only [validate_year_ok hb]
    rw [if_pos hba]
  · intro ha hb hab hspan
    rw [hpe]
    unfold validate_year_range
    rw [validate_year_ok ha]
    simp only [validate_year_ok hb]
    rw [if_neg (by omega), if_pos hspan]
  · intro ha hb hab hspan
    rw [hpe]
    unfold validate_year_range
    rw [validate_year_ok ha]
    simp only [validate_year_ok hb]
    rw [if_neg (by omega), if_neg (by omega)]

theorem claim_C5_witness :
    parse "1995-1990" = .error (.startAfterEnd 1995 1990) :=
  (claim_C5 "1995-1990" 1995 1990 (by decide)).2.1

/-- C4: an input shaped `YYYY-MM-DD` goes through `create_naive_date`,
which validates the year bounds, then the month bounds, then the day
generically against [1, 31], and only then attempts real calendar
construction; a generically-bounded triple naming a nonexistent day fails
with `InvalidCalendarDate` (e.g. 1990-02-30), while an out-of-bounds month
fails with `MonthOutOfRange` (e.g. 1990-13-01). -/
theorem claim_C4 : ∀ (s : String) (y m d : Nat),
    fullDateShape (wsTrim s.toList) = some (y, m, d) →
    (parse s = (match create_naive_date y m d with
       | .error e => .error e
       | .ok date => .ok (.fullDate date)) ∧
     (¬(1970 ≤ y ∧ y ≤ 2030) →
       create_naive_date y m d = .error (.yearOutOfRange y)) ∧
     ((1970 ≤ y ∧ y ≤ 2030) → ¬(1 ≤ m ∧ m ≤ 12) →
       create_naive_date y m d = .error (.monthOutOfRange m)) ∧
     ((1970 ≤ y ∧ y ≤ 2030) → (1 ≤ m ∧ m ≤ 12) → ¬(1 ≤ d ∧ d ≤ 31) →
       create_naive_date y m d = .error (.dayOutOfRange d)) ∧
     ((1970 ≤ y ∧ y ≤ 2030) → (1 ≤ m ∧ m ≤ 12) → (1 ≤ d ∧ d ≤ 31) →
       from_ymd_opt y m d = none →
       parse s = .error (.invalidCalendarDate y m d)) ∧
     ((1970 ≤ y ∧ y ≤ 2030) → (1 ≤ m ∧ m ≤ 12) → (1 ≤ d ∧ d ≤ 31) →
       ∀ dt, from_ymd_opt y m d = some dt → parse s = .ok (.fullDate dt))) ∧
    parse "1990-02-30" = .error (.invalidCalendarDate 1990 2 30) ∧
    parse "1990-13-01" = .error (.monthOutOfRange 13) := by
  intro s y m d h
  have hpe := parse_fullDate_eq h
  refine ⟨⟨hpe, ?_, ?_, ?_, ?_, ?_⟩, by decide, by decide⟩
  · intro hy
    unfold create_naive_date
    rw [validate_year_err hy]
  · intro hy hm
    unfold create_naive_date
    rw [validate_year_ok hy]
    simp only [validate_month_err hm]
  · intro hy hm hd
    unfold create_naive_date
    rw [validate_year_ok hy]
    simp only [validate_month_ok hm, validate_day_err hd]
  · intro hy hm hd hcal
    rw [hpe]
    unfold create_naive_date
    rw [validate_year_ok hy]
    simp only [validate_month_ok hm, validate_day_ok hd, hcal]
  · intro hy hm hd dt hcal
    rw [hpe]
    unfold create_naive_date
    rw [validate_year_ok hy]
    simp only [validate_month_ok hm, validate_day_ok hd, hcal]

theorem claim_C4_witness :
    parse "1990-02-30" = .error (.invalidCalendarDate 1990 2 30) :=
  (claim_C4 "1990-02-30" 1990 2 30 (by decide)).2.1

/-- C6: month names resolve case-insensitively through the fixed lookup
table ("Jan 1990", "january 1990" and "1990-01" all parse to
YearMonth(1990, 1)); an unrecognized name fails with `UnknownMonthName`,
and year and month bounds are validated for both year-month spellings. -/
theorem claim_C6 :
    parse "Jan 1990" = .ok (.yearMonth 1990 1) ∧
    parse "january 1990" = .ok (.yearMonth 1990 1) ∧
    parse "1990-01" = .ok (.yearMonth 1990 1) ∧
    (∀ nm : List Char, parse_month_name nm =
      (match monthLookup (nm.map Char.toLower) with
       | some n => .ok n
       | none => .error .unknownMonthName)) ∧
    (∀ (s : String) (nm : List Char) (y : Nat),
      yearMonthShape (wsTrim s.toList) = some (.named nm y) →
      (parse_month_name nm = .error .unknownMonthName →
        parse s = .error .unknownMonthName) ∧
      (∀ m, parse_month_name nm = .ok m →
        (¬(1970 ≤ y ∧ y ≤ 2030) → parse s = .error (.yearOutOfRange y)) ∧
        ((1970 ≤ y ∧ y ≤ 2030) → parse s = .ok (.yearMonth y m)))) ∧
    (∀ (s : String) (y m : Nat),
      yearMonthShape (wsTrim s.toList) = some (.numeric y m) →
      (¬(1970 ≤ y ∧ y ≤ 2030) → parse s = .error (.yearOutOfRange y)) ∧
      ((1970 ≤ y ∧ y ≤ 2030) → ¬(1 ≤ m ∧ m ≤ 12) →
        parse s = .error (.monthOutOfRange m)) ∧
      ((1970 ≤ y ∧ y ≤ 2030) → (1 ≤ m ∧ m ≤ 12) →
        parse s = .ok (.yearMonth y m))) ∧
    parse "Xyz 1990" = .error .unknownMonthName := by
  refine ⟨by decide, by decide, by decide, fun nm => rfl, ?_, ?_, by decide⟩
  · intro s nm y h
    have hpe := parse_ymNamed_eq h
    constructor
    · intro herr
      rw [hpe, herr]
    · intro m hok
      constructor
      · intro hy
        rw [hpe, hok]
        simp only [validate_year_err hy]
      · intro hy
        rw [hpe, hok]
        simp only [validate_year_ok hy]
  · intro s y m h
    have hpe := parse_ymNumeric_eq h
    refine ⟨?_, ?_, ?_⟩
    · intro hy
      rw [hpe, validate_year_err hy]
    · intro hy hm
      rw [hpe, validate_year_ok hy]
      simp only [validate_month_err hm]
    · intro hy hm
      rw [hpe, validate_year_ok hy]
      simp only [validate_month_ok hm]

theorem claim_C6_witness :
    parse "Feb 1999" = .ok (.yearMonth 1999 2) :=
  ((claim_C6.2.2.2.2.1 "Feb 1999" ("Feb".toList) 1999 (by decide)).2 2
    (by decide)).2 (by norm_num)

/-- C10: the four-letter abbreviation "sept" is accepted (in any letter
case) by the month-name year-month shape: for every year in [1970, 2030],
parsing "Sept <year>" yields YearMonth(year, 9). -/
theorem claim_C10 : ∀ y : Nat, 1970 ≤ y → y ≤ 2030 →
    parse ("Sept " ++ toString y) = .ok (.yearMonth y 9) ∧
    parse ("sept " ++ toString y) = .ok (.yearMonth y 9) ∧
    parse ("SEPT " ++ toString y) = .ok (.yearMonth y 9) := by
  have hall : (List.range' 1970 61).all (fun y =>
      decide (parse ("Sept " ++ toString y) = .ok (.yearMonth y 9)) &&
      decide (parse ("sept " ++ toString y) = .ok (.yearMonth y 9)) &&
      decide (parse ("SEPT " ++ toString y) = .ok (.yearMonth y 9))) = true := by
    decide
  intro y h1 h2
  have hy : y ∈ List.range' 1970 61 := by
    rw [List.mem_range'_1]
    omega
  have hthis := List.all_eq_true.1 hall y hy
  simp only [Bool.and_eq_true, decide_eq_true_eq] at hthis
  exact ⟨hthis.1.1, hthis.1.2, hthis.2⟩

theorem claim_C10_witness :
    parse "Sept 1990" = .ok (.yearMonth 1990 9) :=
  (claim_C10 1990 (by norm_num) (by norm_num)).1

/-- C9 counterexample: the claim says a year-month input with spaces around
the dash, such as "1990 - 01", parses successfully; in the code the
year-month regex has no whitespace allowance around its dash, so this input
matches no shape and fails with `UnrecognizedFormat`. -/
theorem claim_C9_counterexample :
    parse "1990 - 01" = .error .unrecognizedFormat := by decide

/-- C9 (amended): leading and trailing whitespace is trimmed for every
accepted shape, and the range shape additionally permits spaces around its
dash ("2000 - 2005" parses); the numeric year-month shape does not permit
spaces around its dash: "1990 - 01" fails with `UnrecognizedFormat` while
the space-free "1990-01" parses. -/
theorem claim_C9 :
    parse " 2000 - 2005 " = .ok (.range 2000 2005) ∧
    parse "2000 - 2005" = .ok (.range 2000 2005) ∧
    parse "2000-2005" = .ok (.range 2000 2005) ∧
    parse "1990 - 01" = .error .unrecognizedFormat ∧
    parse "1990-01" = .ok (.yearMonth 1990 1) ∧
    parse " 1990-01 " = .ok (.yearMonth 1990 1) ∧
    parse " 1990 " = .ok (.year 1990) ∧
    parse " 1990-01-01 " = .ok (.fullDate ⟨1990, 1, 1⟩) ∧
    parse " 1990 , 1995 " = .ok (.list [1990, 1995]) ∧
    parse " Jan 1990 " = .ok (.yearMonth 1990 1) := by decide

/-! ## Helper lemmas: comma-separated lists -/

/-- The non-empty trimmed parts of a comma split, in split order. -/
def cleanParts (parts : List (List Char)) : List (List Char) :=
  (parts.map wsTrim).filter (fun p => p ≠ [])

/-- The non-empty trimmed parts of the comma split of an input. -/
def listParts (cs : List Char) : List (List Char) :=
  cleanParts (splitOnComma cs)

theorem yearShape_some {q : List Char} {y : Nat} (h : yearShape q = some y) :
    q.length = 4 ∧ q.all isDigitC = true ∧ digitsToNat q = y := by
  unfold yearShape at h
  split at h
  next hc =>
    injection h with h
    exact ⟨hc.1, hc.2, h⟩
  next => exact absurd h (by simp)

theorem yearShape_of {q : List Char} (h1 : q.length = 4)
    (h2 : q.all isDigitC = true) : yearShape q = some (digitsToNat q) := by
  unfold yearShape
  rw [if_pos ⟨h1, h2⟩]

theorem cleanParts_cons_empty {p : List Char} {rest : List (List Char)}
    (h : wsTrim p = []) : cleanParts (p :: rest) = cleanParts rest := by
  simp [cleanParts, h]

theorem cleanParts_cons {p : List Char} {rest : List (List Char)}
    (h : wsTrim p ≠ []) :
    cleanParts (p :: rest) = wsTrim p :: cleanParts rest := by
  simp [cleanParts, h]

/-- Soundness of the list loop: a successful run extends the accumulator by
exactly the (validated, duplicate-free) years of the non-empty trimmed
parts, in split order. -/
theorem go_ok (parts : List (List Char)) : ∀ (seen years res : List Nat),
    (∀ x, x ∈ seen ↔ x ∈ years) → years.Nodup →
    parse_list_go seen years parts = .ok res →
    res = years ++ (cleanParts parts).map digitsToNat ∧
    (∀ p ∈ cleanParts parts, p.length = 4 ∧ p.all isDigitC = true ∧
      1970 ≤ digitsToNat p ∧ digitsToNat p ≤ 2030) ∧
    res.Nodup ∧ res ≠ [] := by
  induction parts with
  | nil =>
    intro seen years res hinv hnd h
    unfold parse_list_go at h
    split at h
    next => exact absurd h (by simp)
    next hne =>
      injection h with h
      subst h
      refine ⟨by simp [cleanParts], by simp [cleanParts], hnd, hne⟩
  | cons p rest ih =>
    intro seen years res hinv hnd h
    unfold parse_list_go at h
    by_cases hq : wsTrim p = []
    · rw [if_pos hq] at h
      rw [cleanParts_cons_empty hq]
      exact ih seen years res hinv hnd h
    · rw [if_neg hq] at h
      cases hys : yearShape (wsTrim p) with
      | none =>
        simp only [hys] at h
        exact absurd h (by simp)
      | some y =>
        simp only [hys] at h
        split at h
        next => exact absurd h (by simp)
        next hbound =>
          split at h
          next => exact absurd h (by simp)
          next hdup =>
            have hinv2 : ∀ x, x ∈ y :: seen ↔ x ∈ years ++ [y] := by
              intro x
              simp only [List.mem_cons, List.mem_append,
                List.mem_singleton, hinv x]
              tauto
            have hynotin : y ∉ years := fun hy => hdup ((hinv y).2 hy)
            have hnd2 : (years ++ [y]).Nodup := by
              rw [List.nodup_append]
              exact ⟨hnd, List.nodup_singleton y,
                fun a ha hay => hynotin (by
                  rw [List.mem_singleton] at hay
                  subst hay
                  exact ha)⟩
            obtain ⟨hres, hprops, hnd3, hne3⟩ :=
              ih (y :: seen) (years ++ [y]) res hinv2 hnd2 h
            obtain ⟨hlen, hdig, hval⟩ := yearShape_some hys
            refine ⟨?_, ?_, hnd3, hne3⟩
            · rw [cleanParts_cons hq]
              simp only [List.map_cons, hval]
              rw [hres, List.append_assoc]
              rfl
            · rw [cleanParts_cons hq]
              intro x hx
              rcases List.mem_cons.1 hx with rfl | hx2
              · exact ⟨hlen, hdig, by rw [hval]; omega, by rw [hval]; omega⟩
              · exact hprops x hx2

/-- Completeness of the list loop: when every non-empty trimmed part is a
bounded four-digit year and the combined years are duplicate-free and
non-empty, the loop succeeds with exactly those years appended. -/
theorem go_complete (parts : List (List Char)) : ∀ (seen years : List Nat),
    (∀ x, x ∈ seen ↔ x ∈ years) →
    (years ++ (cleanParts parts).map digitsToNat).Nodup →
    (∀ p ∈ cleanParts parts, p.length = 4 ∧ p.all isDigitC = true ∧
      1970 ≤ digitsToNat p ∧ digitsToNat p ≤ 2030) →
    years ++ (cleanParts parts).map digitsToNat ≠ [] →
    parse_list_go seen years parts =
      .ok (years ++ (cleanParts parts).map digitsToNat) := by
  induction parts with
  | nil =>
    intro seen years hinv hnd hprops hne
    unfold parse_list_go
    have hcl : cleanParts ([] : List (List Char)) = [] := rfl
    rw [hcl, List.map_nil, List.append_nil] at hne ⊢
    rw [if_neg hne]
  | cons p rest ih =>
    intro seen years hinv hnd hprops hne
    unfold parse_list_go
    by_cases hq : wsTrim p = []
    · rw [if_pos hq, cleanParts_cons_empty hq]
      rw [cleanParts_cons_empty hq] at hnd hprops hne
      exact ih seen years hinv hnd hprops hne
    · rw [if_neg hq, cleanParts_cons hq]
      rw [cleanParts_cons hq] at hnd hprops hne
      obtain ⟨hlen, hdig, hlo, hhi⟩ := hprops (wsTrim p) (List.mem_cons_self _ _)
      rw [List.map_cons] at hnd hne ⊢
      have hynotin : digitsToNat (wsTrim p) ∉ years := by
        intro hy
        rw [List.nodup_append] at hnd
        exact hnd.2.2 hy (List.mem_cons_self _ _)
      have hnotseen : digitsToNat (wsTrim p) ∉ seen :=
        fun hy => hynotin ((hinv _).1 hy)
      simp only [yearShape_of hlen hdig]
      rw [if_neg (by omega), if_neg hnotseen]
      have hinv2 : ∀ x, x ∈ digitsToNat (wsTrim p) :: seen ↔
          x ∈ years ++ [digitsToNat (wsTrim p)] := by
        intro x
        simp only [List.mem_cons, List.mem_append, List.mem_singleton, hinv x]
        tauto
      have hrearr : (years ++ [digitsToNat (wsTrim p)]) ++
          (cleanParts rest).map digitsToNat =
          years ++ (digitsToNat (wsTrim p) :: (cleanParts rest).map digitsToNat) := by
        rw [List.append_assoc]
        rfl
      have hnd2 : ((years ++ [digitsToNat (wsTrim p)]) ++
          (cleanParts rest).map digitsToNat).Nodup := by
        rw [hrearr]
        exact hnd
      have hrec := ih (digitsToNat (wsTrim p) :: seen)
        (years ++ [digitsToNat (wsTrim p)]) hinv2 hnd2
        (fun x hx => hprops x (List.mem_cons_of_mem _ hx))
        (by simp)
      rw [hrec, hrearr]

/-- The list loop reports `EmptyList` exactly when nothing was accumulated
and every remaining part trims to the empty string. -/
theorem go_emptyList (parts : List (List Char)) : ∀ (seen years : List Nat),
    (parse_list_go seen years parts = .error .emptyList ↔
      years = [] ∧ cleanParts parts = []) := by
  induction parts with
  | nil =>
    intro seen years
    unfold parse_list_go
    constructor
    · intro h
      split at h
      next he => exact ⟨he, by simp [cleanParts]⟩
      next => exact absurd h (by simp)
    · intro ⟨h1, _⟩
      rw [if_pos h1]
  | cons p rest ih =>
    intro seen years
    unfold parse_list_go
    by_cases hq : wsTrim p = []
    · rw [if_pos hq, cleanParts_cons_empty hq]
      exact ih seen years
    · rw [if_neg hq, cleanParts_cons hq]
      cases hys : yearShape (wsTrim p) with
      | none =>
        simp only []
        constructor
        · intro h
          injection h with h
          exact absurd h (by simp)
        · intro ⟨_, h⟩
          exact absurd h (by simp)
      | some y =>
        simp only []
        constructor
        · intro h
          split at h
          next => injection h with h; exact absurd h (by simp)
          next =>
            split at h
            next => injection h with h; exact absurd h (by simp)
            next =>
              have := (ih (y :: seen) (years ++ [y])).1 h
              exact absurd this.1 (by simp)
        · intro ⟨_, h⟩
          exact absurd h (by simp)

/-- Every failure of the list loop is one of the list-path errors. -/
theorem go_err_class (parts : List (List Char)) : ∀ (seen years : List Nat)
    (e : ParseError), parse_list_go seen years parts = .error e →
    e = .emptyList ∨ e = .invalidListMember ∨
    (∃ y, e = .duplicateInList y) ∨ (∃ y, e = .yearOutOfRange y) := by
  induction parts with
  | nil =>
    intro seen years e h
    unfold parse_list_go at h
    split at h
    next =>
      injection h with h
      exact Or.inl h.symm
    next => exact absurd h (by simp)
  | cons p rest ih =>
    intro seen years e h
    unfold parse_list_go at h
    by_cases hq : wsTrim p = []
    · rw [if_pos hq] at h
      exact ih seen years e h
    · rw [if_neg hq] at h
      cases hys : yearShape (wsTrim p) with
      | none =>
        simp only [hys] at h
        injection h with h
        exact Or.inr (Or.inl h.symm)
      | some y =>
        simp only [hys] at h
        split at h
        next =>
          injection h with h
          exact Or.inr (Or.inr (Or.inr ⟨y, h.symm⟩))
        next =>
          split at h
          next =>
            injection h with h
            exact Or.inr (Or.inr (Or.inl ⟨y, h.symm⟩))
          next => exact ih _ _ e h

/-- C2: an input containing a comma is treated exclusively as a year list:
split on commas, each part trimmed, empty parts skipped, every remaining
part required to be a bounded four-digit year, duplicates rejected, failure
with `EmptyList` exactly when no year results, and the returned years keep
split order; `parse "1990,1990"` fails with `DuplicateInList`, `parse ","`
with `EmptyList` and `parse "1990,abc"` with `InvalidListMember`. -/
theorem claim_C2 : ∀ s : String, ',' ∈ wsTrim s.toList →
    ((∀ v, parse s = .ok v →
       v = .list ((listParts (wsTrim s.toList)).map digitsToNat) ∧
       listParts (wsTrim s.toList) ≠ [] ∧
       (∀ p ∈ listParts (wsTrim s.toList), p.length = 4 ∧
         p.all isDigitC = true ∧
         1970 ≤ digitsToNat p ∧ digitsToNat p ≤ 2030) ∧
       ((listParts (wsTrim s.toList)).map digitsToNat).Nodup) ∧
     ((∀ p ∈ listParts (wsTrim s.toList), p.length = 4 ∧
         p.all isDigitC = true ∧
         1970 ≤ digitsToNat p ∧ digitsToNat p ≤ 2030) →
       ((listParts (wsTrim s.toList)).map digitsToNat).Nodup →
       listParts (wsTrim s.toList) ≠ [] →
       parse s = .ok (.list ((listParts (wsTrim s.toList)).map digitsToNat))) ∧
     (parse s = .error .emptyList ↔ listParts (wsTrim s.toList) = []) ∧
     (∀ e, parse s = .error e →
       e = .emptyList ∨ e = .invalidListMember ∨
       (∃ y, e = .duplicateInList y) ∨ (∃ y, e = .yearOutOfRange y))) ∧
    parse "1990,1990" = .error (.duplicateInList 1990) ∧
    parse "," = .error .emptyList ∧
    parse "1990,abc" = .error .invalidListMember := by
  intro s hcomma
  have hpl := parse_list_eq hcomma
  refine ⟨⟨?_, ?_, ?_, ?_⟩, by decide, by decide, by decide⟩
  · intro v hv
    simp only [listParts]
    rw [hpl] at hv
    unfold parse_list at hv
    cases hg : parse_list_go [] [] (splitOnComma (wsTrim s.toList)) with
    | error e => rw [hg] at hv; exact absurd hv (by simp)
    | ok res =>
      rw [hg] at hv
      injection hv with hv
      subst hv
      obtain ⟨hres, hprops, hnd, hne⟩ := go_ok _ [] [] res (by simp)
        List.nodup_nil hg
      rw [List.nil_append] at hres
      subst hres
      refine ⟨rfl, ?_, hprops, by
        rw [show ((cleanParts (splitOnComma (wsTrim s.toList))).map
          digitsToNat).Nodup = _ from rfl]
        exact hnd⟩
      intro h0
      apply hne
      rw [h0]
      rfl
  · intro hprops hnd hne
    simp only [listParts] at hprops hnd hne
    rw [hpl]
    unfold parse_list
    have hrun := go_complete (splitOnComma (wsTrim s.toList)) [] [] (by simp)
      (by rw [List.nil_append]; exact hnd) hprops
      (by
        rw [List.nil_append]
        intro h0
        rw [List.map_eq_nil_iff] at h0
        exact hne h0)
    rw [hrun]
    rw [List.nil_append]
    rfl
  · rw [hpl]
    unfold parse_list
    constructor
    · intro h
      cases hg : parse_list_go [] [] (splitOnComma (wsTrim s.toList)) with
      | error e =>
        rw [hg] at h
        injection h with h
        subst h
        exact ((go_emptyList _ [] []).1 hg).2
      | ok res =>
        rw [hg] at h
        exact absurd h (by simp)
    · intro hcl
      have hrun := (go_emptyList (splitOnComma (wsTrim s.toList)) [] []).2
        ⟨rfl, hcl⟩
      rw [hrun]
  · intro e he
    rw [hpl] at he
    unfold parse_list at he
    cases hg : parse_list_go [] [] (splitOnComma (wsTrim s.toList)) with
    | error e2 =>
      rw [hg] at he
      injection he with he
      subst he
      exact go_err_class _ [] [] e2 hg
    | ok res =>
      rw [hg] at he
      exact absurd he (by simp)

theorem claim_C2_witness :
    parse "1990,1990" = .error (.duplicateInList 1990) :=
  (claim_C2 "1990,1990" (by decide)).2.1
